import Mathlib

/-!
Verification of the translator core (`modules/translators/base.py`):
the batching codec (`textlist2text` / `text2textlist`), the `translate`
orchestration, language validation (`check_language_support`,
`set_source`/`set_target`), construction (`BaseTranslator.__init__`),
the post-processing hook registry, and `delay`.

Python strings are modelled as `List Char`; the dual-shape
`Union[str, List[str]]` values as `PyText`; exceptions as `Except`.
-/

set_option autoImplicit false

namespace TranslatorBase

/-- Shorthand: the character list of a Lean string literal. -/
def chars (s : String) : List Char := s.toList

/-- The characters Python `str.strip`/`lstrip`/`rstrip` remove by default. -/
def isPySpace (c : Char) : Bool :=
  c == ' ' || c == '\t' || c == '\n' || c == '\r' || c == '\x0b' || c == '\x0c'

/-- Python `str.lstrip()`. -/
def pyLStrip (l : List Char) : List Char := l.dropWhile isPySpace

/-- Python `str.rstrip()`. -/
def pyRStrip (l : List Char) : List Char := (l.reverse.dropWhile isPySpace).reverse

/-- Python `text.lstrip().rstrip()` as used in `text2textlist`. -/
def pyStrip (l : List Char) : List Char := pyRStrip (pyLStrip l)

/-- Python `sub in l`: whether `sub` occurs as a contiguous substring of `l`. -/
def containsSub (sub : List Char) : List Char → Bool
  | [] => sub.isEmpty
  | c :: rest => sub.isPrefixOf (c :: rest) || containsSub sub rest

/-- Worker for Python `str.split(sep)` (non-empty `sep`): `skip` counts
characters of an already-matched separator still to be consumed; `acc` is the
current chunk, reversed. -/
def splitGo (sep : List Char) : List Char → Nat → List Char → List (List Char)
  | [], _, acc => [acc.reverse]
  | _ :: rest, Nat.succ k, acc => splitGo sep rest k acc
  | c :: rest, 0, acc =>
    if sep.isPrefixOf (c :: rest) && !sep.isEmpty then
      acc.reverse :: splitGo sep rest (sep.length - 1) []
    else
      splitGo sep rest 0 (c :: acc)

/-- Python `l.split(sep)` for a non-empty separator (Python raises on an empty
separator; the callers below never pass one). -/
def pySplit (sep l : List Char) : List (List Char) := splitGo sep l 0 []

/-- Python `sep.join(text_list)`. -/
def joinWith (sep : List Char) : List (List Char) → List Char
  | [] => []
  | [f] => f
  | f :: fs => f ++ sep ++ joinWith sep fs

/-- `self.textblk_break` as assigned in `BaseTranslator.__init__`: `'\n###\n'`. -/
def defaultBreak : List Char := ['\n', '#', '#', '#', '\n']

/-- The default break with newlines removed: what `text2textlist` splits on. -/
def hash3 : List Char := ['#', '#', '#']

/-- `textlist2text`: `self.textblk_break.join(text_list)`. -/
def textlist2text (textblk_break : List Char) (text_list : List (List Char)) :
    List Char :=
  joinWith textblk_break text_list

/-- `text2textlist`: split on the break with `'\n'` removed (falling back to
`'\n'` when that is empty), then `lstrip().rstrip()` each piece. -/
def text2textlist (textblk_break : List Char) (text : List Char) :
    List (List Char) :=
  let breaker := textblk_break.filter (fun c => !(c == '\n'))
  let breaker := if breaker.isEmpty then ['\n'] else breaker
  (pySplit breaker text).map pyStrip


/-- A Python `Union[str, List[str]]` value. -/
inductive PyText where
  | str (s : List Char)
  | list (l : List (List Char))
deriving DecidableEq

/-- Modelled from the spec: `text_is_empty` comes from `utils.io_utils`, which
is not part of this repository's sources; the spec says empty input is "empty
string, empty sequence, or otherwise recognized as empty". -/
def text_is_empty : PyText → Bool
  | .str s => s.isEmpty
  | .list l => l.isEmpty

/-- The exception raised by the `check_language_support` wrapper:
`InvalidSourceOrTargetLanguage(f'Invalid {check_type}: {lang}\n', message=msg)`. -/
structure InvalidSourceOrTargetLanguage where
  info : List Char
  message : List Char
deriving DecidableEq

/-- The translator instance state relevant to the specified behaviour.
(The registry name lookup of `__init__` and the `BaseModule` config bag are
external collaborators and are kept out of the structure; `delay` below takes
the config bag as an explicit argument.)  Hooks are identified by `Nat` ids
interpreted by an environment `Nat → List Char → List Char`; the `OrderedSet`
of hooks is a duplicate-free list in insertion order. -/
structure Translator where
  lang_map : List (List Char × List Char)
  valid_lang_list : List (List Char)
  lang_source : List Char
  lang_target : List Char
  textblk_break : List Char
  concate_text : Bool
  postprocess_hooks : List Nat
deriving DecidableEq

/-- `valid_lang_list` as computed at `__init__` line 94:
`[lang for lang in self.lang_map if self.lang_map[lang] != '']`
(dict keys in insertion order, keeping those mapped to a non-empty code). -/
def validLangsOf (m : List (List Char × List Char)) : List (List Char) :=
  (m.filter (fun p => !p.2.isEmpty)).map Prod.fst

/-- The `supported_src_list` property (defaults to `valid_lang_list`). -/
def supported_src_list (tr : Translator) : List (List Char) := tr.valid_lang_list

/-- The `supported_tgt_list` property (defaults to `valid_lang_list`). -/
def supported_tgt_list (tr : Translator) : List (List Char) := tr.valid_lang_list

/-- `set_source` under the `check_language_support('source')` decorator, with
the post-call state returned alongside the exception, if any: the wrapper
raises before calling the wrapped mutator, so the state at raise time is the
entry state. -/
def set_source_run (tr : Translator) (lang : List Char) :
    Translator × Option InvalidSourceOrTargetLanguage :=
  if lang ∈ supported_src_list tr then
    ({ tr with lang_source := lang }, none)
  else
    (tr, some ⟨chars "Invalid source: " ++ lang ++ ['\n'],
               joinWith ['\n'] (supported_src_list tr)⟩)

/-- `set_target` under the `check_language_support('target')` decorator. -/
def set_target_run (tr : Translator) (lang : List Char) :
    Translator × Option InvalidSourceOrTargetLanguage :=
  if lang ∈ supported_tgt_list tr then
    ({ tr with lang_target := lang }, none)
  else
    (tr, some ⟨chars "Invalid target: " ++ lang ++ ['\n'],
               joinWith ['\n'] (supported_tgt_list tr)⟩)

/-- `set_source` in exception-propagating form. -/
def set_source (tr : Translator) (lang : List Char) :
    Except InvalidSourceOrTargetLanguage Translator :=
  match set_source_run tr lang with
  | (tr', none) => .ok tr'
  | (_, some e) => .error e

/-- `set_target` in exception-propagating form. -/
def set_target (tr : Translator) (lang : List Char) :
    Except InvalidSourceOrTargetLanguage Translator :=
  match set_target_run tr lang with
  | (tr', none) => .ok tr'
  | (_, some e) => .error e

/-- `OrderedSet.add`: append if not already present (dedup, insertion order). -/
def osAdd (s : List Nat) (c : Nat) : List Nat :=
  if c ∈ s then s else s ++ [c]

/-- The argument shapes accepted by `register_postprocess_hooks`. -/
inductive Callbacks where
  | none
  | single (c : Nat)
  | list (cs : List Nat)

/-- `register_postprocess_hooks`: `None` is a no-op, a single callable is
wrapped into a list, each element is added to the ordered set in turn. -/
def register_postprocess_hooks (s : List Nat) : Callbacks → List Nat
  | .none => s
  | .single c => osAdd s c
  | .list cs => cs.foldl osAdd s

/-- The scalar branch of `translate`'s hook loop
(`for callback in self.postprocess_hooks: text_trans = callback(text_trans)`):
sequential composition in insertion order. -/
def applyHooksScalar (interp : Nat → List Char → List Char)
    (hooks : List Nat) (t : List Char) : List Char :=
  hooks.foldl (fun acc cb => interp cb acc) t

/-- The list branch of `translate`'s hook loop
(`for callback in self.postprocess_hooks: text_trans[ii] = callback(t)`):
`t` is the fragment as read by `enumerate` and is never rebound, so each
iteration overwrites slot `ii` with `callback` applied to that same `t`;
the stored value ends as the last hook's output (or `t` with no hooks). -/
def applyHooksElem (interp : Nat → List Char → List Char)
    (hooks : List Nat) (t : List Char) : List Char :=
  hooks.foldl (fun _ cb => interp cb t) t

/-- `translate`.  `backend` is the abstract `_translate` (returning `none` for
Python `None`); `interp` interprets hook ids.  Python-level faults on
ill-shaped backend results (the length `assert`, calling `.split` on a list,
item-assignment/hook application on the wrong type) are modelled as errors. -/
def translate (interp : Nat → List Char → List Char)
    (backend : PyText → Option PyText)
    (tr : Translator) (text : PyText) : Except (List Char) PyText :=
  if text_is_empty text then .ok text
  else
    let concate := (match text with | .list _ => true | .str _ => false)
                    && tr.concate_text
    let text_source : PyText :=
      match text, concate with
      | .list l, true => .str (textlist2text tr.textblk_break l)
      | _, _ => text
    let afterBackend : Except (List Char) PyText :=
      match backend text_source with
      | none =>
        match text with
        | .list l => .ok (.list (l.map fun _ => []))
        | .str _ => .ok (.str [])
      | some v =>
        if concate then
          match v with
          | .str s => .ok (.list (text2textlist tr.textblk_break s))
          | .list _ => .error (chars "AttributeError")
        else .ok v
    match afterBackend with
    | .error e => .error e
    | .ok t =>
      match text, t with
      | .list l, .list m =>
        if m.length = l.length then
          .ok (.list (m.map (applyHooksElem interp tr.postprocess_hooks)))
        else .error (chars "AssertionError")
      | .list l, .str s =>
        if s.length = l.length then
          if tr.postprocess_hooks.isEmpty then .ok (.str s)
          else .error (chars "TypeError")
        else .error (chars "AssertionError")
      | .str _, .str s =>
        .ok (.str (applyHooksScalar interp tr.postprocess_hooks s))
      | .str _, .list m =>
        if tr.postprocess_hooks.isEmpty then .ok (.list m)
        else .error (chars "TypeError")

/-- An exception escaping a backend's `_setup_translator`. -/
inductive SetupExc where
  | missingTranslatorParams (msg : List Char)
  | otherError (msg : List Char)
deriving DecidableEq

/-- The exceptions `BaseTranslator.__init__` can raise. -/
inductive InitError where
  | missingTranslatorParams (msg : List Char)
  | translatorSetupFailure (cause : SetupExc)
  | invalidSourceOrTargetLanguage (e : InvalidSourceOrTargetLanguage)
  | indexError
deriving DecidableEq

/-- The hook id assigned to the bound method `self._chs2cht`. -/
def chs2chtHookId : Nat := 0

/-- The `except InvalidSourceOrTargetLanguage` fallback block of `__init__`:
`lang_source = self.supported_src_list[0]`, `lang_target =
self.supported_tgt_list[0]`, then the two setters again (an `IndexError`
from `[0]` on an empty list, or a re-raised setter error, propagates). -/
def initFallback (tr : Translator) : Except InitError Translator :=
  match supported_src_list tr with
  | [] => .error .indexError
  | s0 :: _ =>
    match supported_tgt_list tr with
    | [] => .error .indexError
    | t0 :: _ =>
      match set_source tr s0 with
      | .error e => .error (.invalidSourceOrTargetLanguage e)
      | .ok tr' =>
        match set_target tr' t0 with
        | .error e => .error (.invalidSourceOrTargetLanguage e)
        | .ok tr'' => .ok tr''

/-- Final step of `__init__`: `if self.cht_require_convert:
self.register_postprocess_hooks(self._chs2cht)`. -/
def registerChtHook (cht_require_convert : Bool) (tr : Translator) : Translator :=
  if cht_require_convert then
    { tr with postprocess_hooks :=
        register_postprocess_hooks tr.postprocess_hooks (.single chs2chtHookId) }
  else tr

/-- `BaseTranslator.__init__`.  `setup` is the backend's `_setup_translator`
(which may mutate the instance's `lang_map` copy, here passed and returned
explicitly); `langmapGlobal` is `LANGMAP_GLOBAL` (the instance copies it).
The registry name lookup touches only the external registry and the unused
`name` field and is omitted. -/
def initTranslator
    (setup : List (List Char × List Char) →
      Except SetupExc (List (List Char × List Char)))
    (langmapGlobal : List (List Char × List Char))
    (cht_require_convert : Bool)
    (lang_source lang_target : List Char)
    (raise_unsupported_lang : Bool) : Except InitError Translator :=
  let tr0 : Translator :=
    { lang_map := langmapGlobal
      valid_lang_list := []
      lang_source := lang_source
      lang_target := lang_target
      textblk_break := defaultBreak
      concate_text := true
      postprocess_hooks := [] }
  match setup tr0.lang_map with
  | .error (.missingTranslatorParams m) => .error (.missingTranslatorParams m)
  | .error e => .error (.translatorSetupFailure e)
  | .ok m' =>
    let tr1 := { tr0 with lang_map := m', valid_lang_list := validLangsOf m' }
    let afterLangs : Except InitError Translator :=
      match set_source tr1 lang_source with
      | .error e =>
        if raise_unsupported_lang then .error (.invalidSourceOrTargetLanguage e)
        else initFallback tr1
      | .ok tr2 =>
        match set_target tr2 lang_target with
        | .error e =>
          if raise_unsupported_lang then .error (.invalidSourceOrTargetLanguage e)
          else initFallback tr2
        | .ok tr3 => .ok tr3
    match afterLangs with
    | .error e => .error e
    | .ok tr3 => .ok (registerChtHook cht_require_convert tr3)

/-- A Python value as can appear under the `'delay'` config key.  Python
floats are modelled as rationals (no float arithmetic is performed: `delay`
only converts and returns). -/
inductive PyVal where
  | vNone
  | vBool (b : Bool)
  | vInt (n : Int)
  | vFloat (q : Rat)
  | vStr (s : List Char)
deriving DecidableEq

/-- Python truthiness for the modelled values. -/
def pyTruthy : PyVal → Bool
  | .vNone => false
  | .vBool b => b
  | .vInt n => n != 0
  | .vFloat q => q != 0
  | .vStr s => !s.isEmpty

/-- Numeric value of a digit run. -/
def digitsVal (ds : List Char) : Nat :=
  ds.foldl (fun a c => a * 10 + (c.toNat - 48)) 0

/-- Parse an unsigned decimal literal (`digits`, `digits.`, `.digits`,
`digits.digits`); `none` models `float()` raising `ValueError`. -/
def parseDecCore (s : List Char) : Option Rat :=
  let ip := s.takeWhile Char.isDigit
  let rest := s.dropWhile Char.isDigit
  match rest with
  | [] => if ip.isEmpty then none else some (digitsVal ip)
  | '.' :: frac =>
    if frac.all Char.isDigit && !(ip.isEmpty && frac.isEmpty) then
      some ((digitsVal ip : Rat) + (digitsVal frac : Rat) / ((10 : Rat) ^ frac.length))
    else none
  | _ => none

/-- Model of Python `float(str)` on a stripped string: optional sign then a
plain decimal literal (exponents/infinities are out of scope for the spec). -/
def parseDec (s : List Char) : Option Rat :=
  match s with
  | '+' :: r => parseDecCore r
  | '-' :: r => (parseDecCore r).map (fun q => -q)
  | _ => parseDecCore s

/-- Model of Python `float(v)`: `none` models the conversion raising. -/
def pyFloatConv : PyVal → Option Rat
  | .vNone => none
  | .vBool b => some (if b then 1 else 0)
  | .vInt n => some (n : Rat)
  | .vFloat q => some q
  | .vStr s => parseDec (pyStrip s)

/-- Dict lookup in the config bag. -/
def lookupKey (params : List (List Char × PyVal)) (k : List Char) : Option PyVal :=
  match params with
  | [] => none
  | (k', v) :: rest => if k' = k then some v else lookupKey rest k

/-- `delay`: return `float(self.params['delay'])` when the key exists, the
value is truthy and the conversion succeeds; in every other case fall through
to `return 0.` (the bare `except: pass` swallows the conversion error). -/
def delay (params : List (List Char × PyVal)) : Rat :=
  match lookupKey params (chars "delay") with
  | some d =>
    if pyTruthy d then
      match pyFloatConv d with
      | some q => q
      | none => 0
    else 0
  | none => 0


/-- Decidable equality for `Except` results, so concrete runs can be checked
by `decide`. -/
instance instDecEqExcept {ε α : Type} [DecidableEq ε] [DecidableEq α] :
    DecidableEq (Except ε α) := fun x y =>
  match x, y with
  | .error a, .error b =>
    if h : a = b then .isTrue (congrArg Except.error h)
    else .isFalse (fun hh => h (Except.error.inj hh))
  | .ok a, .ok b =>
    if h : a = b then .isTrue (congrArg Except.ok h)
    else .isFalse (fun hh => h (Except.ok.inj hh))
  | .error _, .ok _ => .isFalse (fun hh => Except.noConfusion hh)
  | .ok _, .error _ => .isFalse (fun hh => Except.noConfusion hh)

/-! Concrete fixtures used to evaluate the theorems below. -/

/-- A hook environment whose id 0 appends `'X'` and every other id appends `'Y'`. -/
def hookEnvXY : Nat → List Char → List Char :=
  fun n s => if n = 0 then s ++ ['X'] else s ++ ['Y']

/-- The identity hook environment. -/
def idInterp : Nat → List Char → List Char := fun _ s => s

/-- An instance with two registered hooks (ids 0 then 1) and default batching. -/
def trTwoHooks : Translator :=
  { lang_map := []
    valid_lang_list := []
    lang_source := []
    lang_target := []
    textblk_break := defaultBreak
    concate_text := true
    postprocess_hooks := [0, 1] }

/-- An instance whose catalog maps `English ↦ en` and `Auto ↦ ''` (so
`English` is the only valid language), with no hooks. -/
def trW : Translator :=
  { lang_map := [(chars "English", chars "en"), (chars "Auto", [])]
    valid_lang_list := validLangsOf [(chars "English", chars "en"), (chars "Auto", [])]
    lang_source := chars "English"
    lang_target := chars "English"
    textblk_break := defaultBreak
    concate_text := true
    postprocess_hooks := [] }

/-- The chunks that splitting the default-break join produces before
stripping: the first carries a trailing `'\n'`, middle ones are wrapped in
newlines, the last carries a leading `'\n'` (`pre` is the pending prefix). -/
def chunks : List (List Char) → List Char → List (List Char)
  | [], pre => [pre]
  | [f], pre => [pre ++ f]
  | f :: fs, pre => (pre ++ f ++ ['\n']) :: chunks fs ['\n']

/-! Helper lemmas. -/

theorem applyHooksScalar_nil (interp : Nat → List Char → List Char)
    (hooks : List Nat) (hh : ∀ cb ∈ hooks, interp cb [] = []) :
    applyHooksScalar interp hooks [] = [] := by
  induction hooks with
  | nil => rfl
  | cons cb hs ih =>
    unfold applyHooksScalar at *
    simp only [List.foldl_cons]
    rw [hh cb (by simp)]
    exact ih (fun c hc => hh c (by simp [hc]))

theorem applyHooksElem_nil (interp : Nat → List Char → List Char)
    (hooks : List Nat) (hh : ∀ cb ∈ hooks, interp cb [] = []) :
    applyHooksElem interp hooks [] = [] := by
  induction hooks with
  | nil => rfl
  | cons cb hs ih =>
    unfold applyHooksElem at *
    simp only [List.foldl_cons]
    rw [hh cb (by simp)]
    exact ih (fun c hc => hh c (by simp [hc]))

/-! Lemmas for the batching-codec round trip (claim C2). -/

theorem isPrefixOf_stops_at (sep : List Char) (c : Char) (hc : c ∉ sep) :
    ∀ (f t : List Char), sep.isPrefixOf (f ++ c :: t) = true →
      sep.isPrefixOf f = true := by
  induction sep with
  | nil => intro f t _; simp [List.isPrefixOf]
  | cons s ss ih =>
    intro f t h
    cases f with
    | nil =>
      simp only [List.nil_append, List.isPrefixOf, Bool.and_eq_true,
                 beq_iff_eq] at h
      apply absurd _ hc
      rw [← h.1]
      exact List.mem_cons_self _ _
    | cons a f' =>
      simp only [List.cons_append, List.isPrefixOf, Bool.and_eq_true,
                 beq_iff_eq] at h ⊢
      exact ⟨h.1, ih (fun hm => hc (List.mem_cons_of_mem _ hm)) f' t h.2⟩

theorem containsSub_of_isPrefixOf (sep f : List Char)
    (h : sep.isPrefixOf f = true) : containsSub sep f = true := by
  cases f with
  | nil =>
    cases sep with
    | nil => rfl
    | cons s ss => simp [List.isPrefixOf] at h
  | cons c rest => simp [containsSub, h]

theorem containsSub_cons_false {sep : List Char} {c : Char} {rest : List Char}
    (h : containsSub sep (c :: rest) = false) :
    sep.isPrefixOf (c :: rest) = false ∧ containsSub sep rest = false := by
  rw [containsSub, Bool.or_eq_false_iff] at h
  exact h

theorem splitGo_no_sep (sep : List Char) :
    ∀ (l : List Char), containsSub sep l = false →
      ∀ acc, splitGo sep l 0 acc = [acc.reverse ++ l] := by
  intro l
  induction l with
  | nil => intro _ acc; simp [splitGo]
  | cons c rest ih =>
    intro h acc
    obtain ⟨hp, hrest⟩ := containsSub_cons_false h
    rw [splitGo, hp]
    simp only [Bool.false_and, Bool.false_eq_true, if_false]
    rw [ih hrest (c :: acc)]
    simp

theorem splitGo_at_break :
    ∀ (f : List Char), containsSub hash3 f = false →
    ∀ (rest acc : List Char),
      splitGo hash3 (f ++ '\n' :: '#' :: '#' :: '#' :: rest) 0 acc
        = (acc.reverse ++ f ++ ['\n']) :: splitGo hash3 rest 0 [] := by
  intro f
  induction f with
  | nil =>
    intro _ rest acc
    have hstep : splitGo hash3 ('\n' :: '#' :: '#' :: '#' :: rest) 0 acc
        = ('\n' :: acc).reverse :: splitGo hash3 rest 0 [] := by
      simp +decide [splitGo, hash3, List.isPrefixOf]
    rw [List.nil_append, hstep]
    simp
  | cons a f' ih =>
    intro hf rest acc
    have hpf : hash3.isPrefixOf (a :: f') = false := by
      cases hq : hash3.isPrefixOf (a :: f') with
      | false => rfl
      | true =>
        have := containsSub_of_isPrefixOf hash3 (a :: f') hq
        rw [hf] at this
        exact absurd this (by simp)
    have hcond :
        hash3.isPrefixOf (a :: (f' ++ '\n' :: '#' :: '#' :: '#' :: rest))
          = false := by
      cases hq :
          hash3.isPrefixOf (a :: (f' ++ '\n' :: '#' :: '#' :: '#' :: rest)) with
      | false => rfl
      | true =>
        have hq' :
            hash3.isPrefixOf ((a :: f') ++ '\n' :: '#' :: '#' :: '#' :: rest)
              = true := by
          rw [List.cons_append]
          exact hq
        have := isPrefixOf_stops_at hash3 '\n' (by decide)
          (a :: f') ('#' :: '#' :: '#' :: rest) hq'
        rw [hpf] at this
        exact absurd this (by simp)
    rw [List.cons_append, splitGo, hcond]
    simp only [Bool.false_and, Bool.false_eq_true, if_false]
    rw [ih (containsSub_cons_false hf).2 rest (a :: acc)]
    simp

theorem splitGo_joinWith :
    ∀ (F : List (List Char)), F ≠ [] →
      (∀ f ∈ F, containsSub hash3 f = false) →
      ∀ acc, splitGo hash3 (joinWith defaultBreak F) 0 acc
        = chunks F acc.reverse := by
  intro F
  induction F with
  | nil => intro h; exact absurd rfl h
  | cons f F' ih =>
    intro _ hfree acc
    cases F' with
    | nil =>
      rw [show joinWith defaultBreak [f] = f from rfl]
      rw [splitGo_no_sep hash3 f (hfree f (by simp)) acc]
      rfl
    | cons f2 F'' =>
      have hj : joinWith defaultBreak (f :: f2 :: F'')
          = f ++ '\n' :: '#' :: '#' :: '#' ::
              ('\n' :: joinWith defaultBreak (f2 :: F'')) := by
        simp [joinWith, defaultBreak]
      rw [hj, splitGo_at_break f (hfree f (by simp)) _ acc]
      have hstep : splitGo hash3 ('\n' :: joinWith defaultBreak (f2 :: F'')) 0 []
          = splitGo hash3 (joinWith defaultBreak (f2 :: F'')) 0 ['\n'] := rfl
      rw [hstep, ih (by simp) (fun g hg => hfree g (by simp [hg])) ['\n']]
      rfl

theorem pyRStrip_snoc (l : List Char) (c : Char) (hc : isPySpace c = true) :
    pyRStrip (l ++ [c]) = pyRStrip l := by
  simp [pyRStrip, List.dropWhile_cons, hc]

theorem pyStrip_cons_ws (c : Char) (l : List Char) (hc : isPySpace c = true) :
    pyStrip (c :: l) = pyStrip l := by
  simp [pyStrip, pyLStrip, List.dropWhile_cons, hc]

theorem pyStrip_snoc_ws (l : List Char) (c : Char) (hc : isPySpace c = true) :
    pyStrip (l ++ [c]) = pyStrip l := by
  induction l with
  | nil => simp [pyStrip, pyLStrip, pyRStrip, List.dropWhile_cons, hc]
  | cons a l' ih =>
    by_cases ha : isPySpace a = true
    · rw [List.cons_append, pyStrip_cons_ws a _ ha, ih, ← pyStrip_cons_ws a l' ha]
    · have hl : ∀ X, pyLStrip (a :: X) = a :: X := fun X => by
        simp [pyLStrip, List.dropWhile_cons, ha]
      rw [List.cons_append]
      simp only [pyStrip, hl]
      rw [show a :: (l' ++ [c]) = (a :: l') ++ [c] from rfl, pyRStrip_snoc _ c hc]

theorem pyStrip_wsPre (pre f : List Char)
    (hp : ∀ c ∈ pre, isPySpace c = true) : pyStrip (pre ++ f) = pyStrip f := by
  induction pre with
  | nil => rfl
  | cons c p' ih =>
    rw [List.cons_append, pyStrip_cons_ws c _ (hp c (by simp)),
        ih (fun d hd => hp d (by simp [hd]))]

theorem chunks_map_strip :
    ∀ (F : List (List Char)), F ≠ [] → ∀ (pre : List Char),
      (∀ c ∈ pre, isPySpace c = true) →
      (chunks F pre).map pyStrip = F.map pyStrip := by
  intro F
  induction F with
  | nil => intro h; exact absurd rfl h
  | cons f F' ih =>
    intro _ pre hpre
    cases F' with
    | nil =>
      simp [chunks, pyStrip_wsPre pre f hpre]
    | cons f2 F'' =>
      have h1 : pyStrip (pre ++ f ++ ['\n']) = pyStrip f := by
        rw [List.append_assoc, pyStrip_wsPre pre _ hpre,
            pyStrip_snoc_ws f '\n' (by decide)]
      simp only [chunks, List.map_cons, h1]
      rw [ih (by simp) ['\n'] (by simp [isPySpace])]
      simp

/-! Claim theorems. -/

/-- Claim C1 (code bug): for list inputs the hook loop rebinds nothing: each
iteration stores `callback(t)` for the fragment `t` as originally read, so
with hooks `[0, 1]` on input `["a"]` and an identity backend the code returns
`["aY"]` (only the last hook's output), not the sequential composition
`["aXY"]` that the spec describes (and that the scalar branch and
`translate_textblk_lst` implement). -/
theorem translate_list_hooks_last_only :
    translate hookEnvXY (fun t => some t) trTwoHooks (.list [['a']])
      = .ok (.list [chars "aY"]) ∧
    hookEnvXY 1 (hookEnvXY 0 ['a']) = chars "aXY" ∧
    chars "aY" ≠ chars "aXY" := by
  refine ⟨by decide, by decide, by decide⟩

/-- Claim C2 counterexample: the fragment `"a###b"` does not contain the
delimiter `"\n###\n"`, yet joining the one-element batch and splitting back
yields two fragments, not one — `text2textlist` splits on the delimiter with
newlines removed (`"###"`), which this fragment does contain. -/
theorem textlist_roundtrip_delim_cex :
    containsSub defaultBreak (chars "a###b") = false ∧
    text2textlist defaultBreak (textlist2text defaultBreak [chars "a###b"])
      = [chars "a", chars "b"] ∧
    (text2textlist defaultBreak
        (textlist2text defaultBreak [chars "a###b"])).length
      ≠ ([chars "a###b"].map pyStrip).length := by
  refine ⟨by decide, by decide, by decide⟩

/-- Claim C2 (amended): for a non-empty batch in which no fragment contains
`"###"` (the delimiter stripped of newlines, which is what the split uses),
join followed by split returns the batch with each fragment stripped of
surrounding whitespace, in particular of the same length. -/
theorem textlist_roundtrip (F : List (List Char)) (hne : F ≠ [])
    (hfree : ∀ f ∈ F, containsSub hash3 f = false) :
    text2textlist defaultBreak (textlist2text defaultBreak F)
      = F.map pyStrip ∧
    (text2textlist defaultBreak (textlist2text defaultBreak F)).length
      = F.length := by
  have hmain : text2textlist defaultBreak (textlist2text defaultBreak F)
      = F.map pyStrip := by
    simp only [text2textlist, textlist2text]
    have hbr : (if (defaultBreak.filter (fun c => !(c == '\n'))).isEmpty
          then ['\n'] else defaultBreak.filter (fun c => !(c == '\n')))
        = hash3 := by decide
    rw [hbr]
    show (splitGo hash3 (joinWith defaultBreak F) 0 []).map pyStrip
      = F.map pyStrip
    rw [splitGo_joinWith F hne hfree []]
    exact chunks_map_strip F hne [] (by simp)
  exact ⟨hmain, by rw [hmain]; simp⟩

/-- Witness for C2 on a concrete two-fragment batch with inner whitespace. -/
theorem textlist_roundtrip_witness :
    ([chars "hello", chars " wor ld "] ≠ ([] : List (List Char))) ∧
    (∀ f ∈ [chars "hello", chars " wor ld "],
      containsSub hash3 f = false) ∧
    text2textlist defaultBreak
        (textlist2text defaultBreak [chars "hello", chars " wor ld "])
      = [chars "hello", chars " wor ld "].map pyStrip :=
  ⟨by decide, by decide,
   (textlist_roundtrip [chars "hello", chars " wor ld "]
      (by decide) (by decide)).1⟩

/-- Claim C3: when the backend's `_translate` returns `None`, `translate`
substitutes `''` for a single non-empty string and `[''] * N` for a non-empty
list of `N` strings, returning a (never-`None`) result of the input's shape.
Stated for hook sets that fix the empty string (in particular the default
empty hook set); other hooks post-process the substituted empties. -/
theorem translate_none_backend (interp : Nat → List Char → List Char)
    (backend : PyText → Option PyText) (tr : Translator)
    (hb : ∀ t, backend t = none)
    (hh : ∀ cb ∈ tr.postprocess_hooks, interp cb [] = []) :
    (∀ s, s ≠ [] → translate interp backend tr (.str s) = .ok (.str [])) ∧
    (∀ l : List (List Char), l ≠ [] →
      translate interp backend tr (.list l)
        = .ok (.list (l.map fun _ => ([] : List Char))) ∧
      (l.map fun _ => ([] : List Char)).length = l.length) := by
  constructor
  · intro s hs
    have he : text_is_empty (PyText.str s) = false := by
      cases s with
      | nil => exact absurd rfl hs
      | cons c cs => rfl
    simp [translate, he, hb, applyHooksScalar_nil interp tr.postprocess_hooks hh]
  · intro l hl
    have he : text_is_empty (PyText.list l) = false := by
      cases l with
      | nil => exact absurd rfl hl
      | cons f fs => rfl
    constructor
    · simp [translate, he, hb, List.map_map, Function.comp,
            applyHooksElem_nil interp tr.postprocess_hooks hh]
    · simp

/-- Witness for C3 at a concrete instance with no hooks. -/
theorem translate_none_backend_witness :
    (∀ cb ∈ trW.postprocess_hooks, idInterp cb [] = []) ∧
    translate idInterp (fun _ => Option.none) trW (.str (chars "hi"))
      = .ok (.str []) ∧
    translate idInterp (fun _ => Option.none) trW (.list [chars "a", chars "b"])
      = .ok (.list [[], []]) := by
  refine ⟨by simp [trW], ?_, ?_⟩
  · exact (translate_none_backend idInterp (fun _ => Option.none) trW
      (fun _ => rfl) (by simp [trW])).1 (chars "hi") (by decide)
  · exact ((translate_none_backend idInterp (fun _ => Option.none) trW
      (fun _ => rfl) (by simp [trW])).2 [chars "a", chars "b"] (by decide)).1

/-- Claim C4: input recognized as empty is returned unchanged, for every
backend and every hook environment (so no backend call or hook application
can influence the result). -/
theorem translate_empty_unchanged (interp : Nat → List Char → List Char)
    (backend : PyText → Option PyText) (tr : Translator) (t : PyText)
    (h : text_is_empty t = true) :
    translate interp backend tr t = .ok t := by
  simp [translate, h]

/-- Witness for C4 on the empty string and the empty list. -/
theorem translate_empty_unchanged_witness :
    text_is_empty (.str []) = true ∧
    translate hookEnvXY (fun _ => Option.none) trTwoHooks (.str [])
      = .ok (.str []) ∧
    translate hookEnvXY (fun _ => Option.none) trTwoHooks (.list [])
      = .ok (.list []) :=
  ⟨by decide,
   translate_empty_unchanged hookEnvXY (fun _ => Option.none) trTwoHooks
     (.str []) (by decide),
   translate_empty_unchanged hookEnvXY (fun _ => Option.none) trTwoHooks
     (.list []) (by decide)⟩

/-- Claim C8: hook registration is idempotent on an already-registered
callback, `None` is a no-op, a twice-registered hook occurs exactly once in
the ordered set (hence runs once per fragment), and registering a list adds
its elements left to right with the same deduplication. -/
theorem register_hooks_dedup (s : List Nat) (c : Nat) (cs : List Nat)
    (hnd : s.Nodup) :
    (c ∈ s → register_postprocess_hooks s (.single c) = s) ∧
    register_postprocess_hooks s .none = s ∧
    register_postprocess_hooks (register_postprocess_hooks s (.single c))
        (.single c) = register_postprocess_hooks s (.single c) ∧
    (register_postprocess_hooks s (.single c)).count c = 1 ∧
    register_postprocess_hooks s (.list (c :: cs))
      = register_postprocess_hooks (register_postprocess_hooks s (.single c))
          (.list cs) := by
  refine ⟨?_, rfl, ?_, ?_, ?_⟩
  · intro hc
    simp [register_postprocess_hooks, osAdd, hc]
  · have hmem : c ∈ osAdd s c := by
      by_cases h : c ∈ s <;> simp [osAdd, h]
    simp only [register_postprocess_hooks]
    rw [osAdd, if_pos hmem]
  · by_cases hc : c ∈ s
    · simp only [register_postprocess_hooks, osAdd, if_pos hc]
      exact List.count_eq_one_of_mem hnd hc
    · simp only [register_postprocess_hooks, osAdd, if_neg hc]
      rw [List.count_append]
      simp [List.count_eq_zero.mpr hc]
  · simp [register_postprocess_hooks]

/-- Witness for C8 at a concrete ordered set. -/
theorem register_hooks_dedup_witness :
    ([5, 7] : List Nat).Nodup ∧
    (7 ∈ ([5, 7] : List Nat) →
      register_postprocess_hooks [5, 7] (.single 7) = [5, 7]) ∧
    (register_postprocess_hooks [5, 7] (.single 7)).count 7 = 1 :=
  ⟨by decide,
   (register_hooks_dedup [5, 7] 7 [] (by decide)).1,
   (register_hooks_dedup [5, 7] 7 [] (by decide)).2.2.2.1⟩

/-- Claim C9: a setter call that raises leaves the instance exactly as it
was: the validity check precedes the mutation, so the state paired with a
raised `InvalidSourceOrTargetLanguage` is the entry state. -/
theorem set_lang_failed_atomic (tr : Translator) (lang : List Char) :
    ((set_source_run tr lang).2.isSome → (set_source_run tr lang).1 = tr) ∧
    ((set_target_run tr lang).2.isSome → (set_target_run tr lang).1 = tr) := by
  constructor
  · intro h
    unfold set_source_run at *
    split at h <;> simp_all
  · intro h
    unfold set_target_run at *
    split at h <;> simp_all

/-- Witness for C9: an invalid language leaves `trW` untouched. -/
theorem set_lang_failed_atomic_witness :
    (set_source_run trW (chars "Klingon")).2.isSome = true ∧
    (set_source_run trW (chars "Klingon")).1 = trW ∧
    (set_target_run trW (chars "Klingon")).2.isSome = true ∧
    (set_target_run trW (chars "Klingon")).1 = trW :=
  ⟨by decide,
   (set_lang_failed_atomic trW (chars "Klingon")).1 (by decide),
   by decide,
   (set_lang_failed_atomic trW (chars "Klingon")).2 (by decide)⟩

/-- Claim C5: setting a language absent from the applicable supported list
raises `InvalidSourceOrTargetLanguage` whose message is the newline-join of
the valid languages — exactly the catalog names with a non-empty code, each
exactly once (the catalog is a dict, so its keys are nodup) — and setting a
listed language succeeds. -/
theorem set_lang_invalid_enumerates (tr : Translator) (lang : List Char)
    (hwf : tr.valid_lang_list = validLangsOf tr.lang_map)
    (hnd : (tr.lang_map.map Prod.fst).Nodup) :
    (lang ∉ supported_src_list tr →
      set_source tr lang = .error
        ⟨chars "Invalid source: " ++ lang ++ ['\n'],
         joinWith ['\n'] (validLangsOf tr.lang_map)⟩) ∧
    (lang ∈ supported_src_list tr →
      ∃ tr', set_source tr lang = .ok tr' ∧ tr'.lang_source = lang) ∧
    (lang ∉ supported_tgt_list tr →
      set_target tr lang = .error
        ⟨chars "Invalid target: " ++ lang ++ ['\n'],
         joinWith ['\n'] (validLangsOf tr.lang_map)⟩) ∧
    (lang ∈ supported_tgt_list tr →
      ∃ tr', set_target tr lang = .ok tr' ∧ tr'.lang_target = lang) ∧
    (∀ nm, nm ∈ validLangsOf tr.lang_map ↔
      ∃ code, (nm, code) ∈ tr.lang_map ∧ code ≠ []) ∧
    (validLangsOf tr.lang_map).Nodup := by
  refine ⟨?_, ?_, ?_, ?_, ?_, ?_⟩
  · intro h
    rw [supported_src_list, hwf] at h
    simp [set_source, set_source_run, supported_src_list, hwf, h]
  · intro h
    exact ⟨{ tr with lang_source := lang },
           by simp [set_source, set_source_run, h], rfl⟩
  · intro h
    rw [supported_tgt_list, hwf] at h
    simp [set_target, set_target_run, supported_tgt_list, hwf, h]
  · intro h
    exact ⟨{ tr with lang_target := lang },
           by simp [set_target, set_target_run, h], rfl⟩
  · intro nm
    constructor
    · intro h
      simp only [validLangsOf, List.mem_map, List.mem_filter] at h
      obtain ⟨⟨a, b⟩, ⟨hm, hne⟩, rfl⟩ := h
      refine ⟨b, hm, ?_⟩
      simpa using hne
    · rintro ⟨code, hm, hne⟩
      simp only [validLangsOf, List.mem_map, List.mem_filter]
      exact ⟨(nm, code), ⟨hm, by simpa using hne⟩, rfl⟩
  · exact hnd.sublist ((List.filter_sublist _).map Prod.fst)

/-- Witness for C5 on `trW`: `Auto` is rejected with message `English`,
`English` is accepted. -/
theorem set_lang_invalid_enumerates_witness :
    trW.valid_lang_list = validLangsOf trW.lang_map ∧
    (trW.lang_map.map Prod.fst).Nodup ∧
    chars "Auto" ∉ supported_src_list trW ∧
    set_source trW (chars "Auto") = .error
      ⟨chars "Invalid source: " ++ chars "Auto" ++ ['\n'],
       joinWith ['\n'] (validLangsOf trW.lang_map)⟩ ∧
    (∃ tr', set_source trW (chars "English") = .ok tr' ∧
            tr'.lang_source = chars "English") :=
  ⟨by decide, by decide, by decide,
   (set_lang_invalid_enumerates trW (chars "Auto") (by decide) (by decide)).1
     (by decide),
   (set_lang_invalid_enumerates trW (chars "English") (by decide)
     (by decide)).2.1 (by decide)⟩

/-- Claim C6: a `MissingTranslatorParams` escaping `_setup_translator`
propagates from `__init__` unchanged; any other exception is wrapped into
`TranslatorSetupFailure` carrying the cause; either way construction yields
no instance (the result is an error). -/
theorem init_setup_error_propagation
    (setup : List (List Char × List Char) →
      Except SetupExc (List (List Char × List Char)))
    (g : List (List Char × List Char)) (cht : Bool) (ls lt : List Char)
    (r : Bool) :
    (∀ m, setup g = .error (.missingTranslatorParams m) →
      initTranslator setup g cht ls lt r = .error (.missingTranslatorParams m)) ∧
    (∀ e, setup g = .error e → (∀ m, e ≠ .missingTranslatorParams m) →
      initTranslator setup g cht ls lt r
        = .error (.translatorSetupFailure e)) := by
  constructor
  · intro m hm
    simp [initTranslator, hm]
  · intro e he hne
    cases e with
    | missingTranslatorParams m => exact absurd rfl (hne m)
    | otherError _ => simp [initTranslator, he]

/-- Witness for C6: a missing-parameter setup and a generic-failure setup. -/
theorem init_setup_error_propagation_witness :
    initTranslator (fun _ => .error (.missingTranslatorParams (chars "api_key")))
        [] false (chars "a") (chars "b") true
      = .error (.missingTranslatorParams (chars "api_key")) ∧
    initTranslator (fun _ => .error (.otherError (chars "boom")))
        [] false (chars "a") (chars "b") true
      = .error (.translatorSetupFailure (.otherError (chars "boom"))) :=
  ⟨(init_setup_error_propagation
      (fun _ => .error (.missingTranslatorParams (chars "api_key")))
      [] false (chars "a") (chars "b") true).1 (chars "api_key") rfl,
   (init_setup_error_propagation
      (fun _ => .error (.otherError (chars "boom")))
      [] false (chars "a") (chars "b") true).2 (.otherError (chars "boom")) rfl
      (fun _ h => SetupExc.noConfusion h)⟩

theorem registerChtHook_fields (b : Bool) (tr : Translator) :
    (registerChtHook b tr).lang_source = tr.lang_source ∧
    (registerChtHook b tr).lang_target = tr.lang_target ∧
    (registerChtHook b tr).valid_lang_list = tr.valid_lang_list := by
  unfold registerChtHook
  split <;> simp

theorem initFallback_eq (tr : Translator) (s0 : List Char)
    (rest : List (List Char)) (hv : tr.valid_lang_list = s0 :: rest) :
    initFallback tr = .ok { tr with lang_source := s0, lang_target := s0 } := by
  have h1 : supported_src_list tr = s0 :: rest := hv
  have h2 : supported_tgt_list tr = s0 :: rest := hv
  simp [initFallback, h1, h2, set_source, set_target, set_source_run,
        set_target_run, supported_src_list, supported_tgt_list, hv]

/-- Claim C7: with `raise_unsupported_lang = False` and an invalid requested
source or target, construction succeeds and both current languages are the
first entry of the supported source/target list (the two lists coincide on
`valid_lang_list`, and the fallback resets both even when only one request
was invalid). -/
theorem init_fallback_first_langs
    (setup : List (List Char × List Char) →
      Except SetupExc (List (List Char × List Char)))
    (g : List (List Char × List Char)) (cht : Bool) (ls lt : List Char)
    (m' : List (List Char × List Char)) (s0 : List Char)
    (rest : List (List Char))
    (hset : setup g = .ok m')
    (hv : validLangsOf m' = s0 :: rest)
    (hinv : ls ∉ validLangsOf m' ∨ lt ∉ validLangsOf m') :
    ∃ tr, initTranslator setup g cht ls lt false = .ok tr ∧
      tr.lang_source = s0 ∧ tr.lang_target = s0 ∧
      supported_src_list tr = s0 :: rest ∧
      supported_tgt_list tr = s0 :: rest := by
  have hfb := initFallback_eq
    { lang_map := m', valid_lang_list := validLangsOf m', lang_source := ls,
      lang_target := lt, textblk_break := defaultBreak, concate_text := true,
      postprocess_hooks := [] } s0 rest hv
  by_cases hls : ls ∈ validLangsOf m'
  · have hlt : lt ∉ validLangsOf m' := by
      cases hinv with
      | inl h => exact absurd hls h
      | inr h => exact h
    refine ⟨registerChtHook cht
      { lang_map := m', valid_lang_list := validLangsOf m',
        lang_source := s0, lang_target := s0,
        textblk_break := defaultBreak, concate_text := true,
        postprocess_hooks := [] }, ?_, ?_, ?_, ?_, ?_⟩
    · simp only [initTranslator, hset]
      simp [set_source, set_target, set_source_run, set_target_run,
            supported_src_list, supported_tgt_list, hls, hlt, hfb]
    · exact (registerChtHook_fields cht _).1
    · exact (registerChtHook_fields cht _).2.1
    · show (registerChtHook cht _).valid_lang_list = s0 :: rest
      rw [(registerChtHook_fields cht _).2.2, hv]
    · show (registerChtHook cht _).valid_lang_list = s0 :: rest
      rw [(registerChtHook_fields cht _).2.2, hv]
  · refine ⟨registerChtHook cht
      { lang_map := m', valid_lang_list := validLangsOf m',
        lang_source := s0, lang_target := s0,
        textblk_break := defaultBreak, concate_text := true,
        postprocess_hooks := [] }, ?_, ?_, ?_, ?_, ?_⟩
    · simp only [initTranslator, hset]
      simp [set_source, set_target, set_source_run, set_target_run,
            supported_src_list, supported_tgt_list, hls, hfb]
    · exact (registerChtHook_fields cht _).1
    · exact (registerChtHook_fields cht _).2.1
    · show (registerChtHook cht _).valid_lang_list = s0 :: rest
      rw [(registerChtHook_fields cht _).2.2, hv]
    · show (registerChtHook cht _).valid_lang_list = s0 :: rest
      rw [(registerChtHook_fields cht _).2.2, hv]

/-- Witness for C7: requesting two unsupported languages with the fallback
policy yields an instance on the first valid language. -/
theorem init_fallback_first_langs_witness :
    (fun _ => (.ok [(chars "English", chars "en")] :
        Except SetupExc (List (List Char × List Char))))
      ([] : List (List Char × List Char)) = .ok [(chars "English", chars "en")] ∧
    validLangsOf [(chars "English", chars "en")] = [chars "English"] ∧
    chars "X" ∉ validLangsOf [(chars "English", chars "en")] ∧
    (∃ tr, initTranslator
        (fun _ => .ok [(chars "English", chars "en")]) [] false
        (chars "X") (chars "Y") false = .ok tr ∧
      tr.lang_source = chars "English" ∧ tr.lang_target = chars "English" ∧
      supported_src_list tr = [chars "English"] ∧
      supported_tgt_list tr = [chars "English"]) :=
  ⟨rfl, by decide, by decide,
   init_fallback_first_langs (fun _ => .ok [(chars "English", chars "en")])
     [] false (chars "X") (chars "Y") [(chars "English", chars "en")]
     (chars "English") [] rfl (by decide) (Or.inl (by decide))⟩

/-- Claim C10: `delay` is total (it is a Lean function; the `except: pass`
is the `none → 0` branch) and returns the float conversion of the config
value exactly when the key is present, truthy and convertible, and `0` in
every other case. -/
theorem delay_cases (params : List (List Char × PyVal)) :
    (∀ v q, lookupKey params (chars "delay") = some v → pyTruthy v = true →
      pyFloatConv v = some q → delay params = q) ∧
    (lookupKey params (chars "delay") = none → delay params = 0) ∧
    (∀ v, lookupKey params (chars "delay") = some v → pyTruthy v = false →
      delay params = 0) ∧
    (∀ v, lookupKey params (chars "delay") = some v → pyFloatConv v = none →
      delay params = 0) := by
  refine ⟨?_, ?_, ?_, ?_⟩
  · intro v q hv ht hq
    simp [delay, hv, ht, hq]
  · intro hv
    simp [delay, hv]
  · intro v hv ht
    simp [delay, hv, ht]
  · intro v hv hq
    simp [delay, hv, hq]

/-- Witness for C10: a truthy convertible string, a falsy value, an absent
key and an unconvertible string. -/
theorem delay_cases_witness :
    delay [(chars "delay", .vStr (chars " 2 "))] = 2 ∧
    delay [] = 0 ∧
    delay [(chars "delay", .vInt 0)] = 0 ∧
    delay [(chars "delay", .vStr (chars "soon"))] = 0 :=
  ⟨(delay_cases [(chars "delay", .vStr (chars " 2 "))]).1
      (.vStr (chars " 2 ")) 2 (by decide) (by decide) (by decide),
   (delay_cases []).2.1 (by decide),
   (delay_cases [(chars "delay", .vInt 0)]).2.2.1 (.vInt 0) (by decide) (by decide),
   (delay_cases [(chars "delay", .vStr (chars "soon"))]).2.2.2
      (.vStr (chars "soon")) (by decide) (by decide)⟩

end TranslatorBase
